import Mathlib

/-!
Verification of the RPN post-processing pipeline of
`maskrcnn_benchmark/modeling/rpn/inference.py`.

The file embeds the data model and the operations of `RPNPostProcessor`
(`__init__`, `add_gt_proposals`, `forward_for_single_feature_map`, `forward`,
`select_over_all_levels`) as executable Lean definitions and proves the
specification claims about them.

Modelling conventions:
* Box coordinates and scores are rationals (`ℚ`); the source's float tensors
  are modelled as lists of rationals.
* The batched tensors of shape `N × A × H × W` are modelled, per image, as the
  flat sequence of length `A·H·W` that `permute_and_flatten` produces; the
  flattening itself lives outside this repository slice, and the spec fixes
  its contract: the flat score/delta sequences are parallel to the anchor
  list (same index addresses the same anchor).
* `BoxCoder.decode` and the sigmoid are opaque external collaborators and are
  passed as function parameters (`dec : Delta → Box → Box`, `sig : ℚ → ℚ`).
* `self.training` of `torch.nn.Module` is passed explicitly as a `training`
  flag.
-/

/-- Axis-aligned box in `xyxy` mode: `(x1, y1, x2, y2)`. -/
structure Box where
  x1 : ℚ
  y1 : ℚ
  x2 : ℚ
  y2 : ℚ
deriving DecidableEq, Inhabited

/-- A box-regression delta: the 4-tuple of regression values for one anchor. -/
abbrev Delta := ℚ × ℚ × ℚ × ℚ

/-- One proposal: a box together with its `objectness` score field. -/
structure Proposal where
  box : Box
  objectness : ℚ
deriving DecidableEq, Inhabited

/-- The slice of the `BoxList` container the pipeline reads from anchors:
the boxes (`bbox`) and the image size `(width, height)`. -/
structure BoxList where
  bbox : List Box
  size : ℚ × ℚ
deriving DecidableEq, Inhabited

/-- Width of a box in `xyxy` mode. -/
def boxWidth (b : Box) : ℚ := b.x2 - b.x1

/-- Height of a box in `xyxy` mode. -/
def boxHeight (b : Box) : ℚ := b.y2 - b.y1

/-- Clamp `x` into `[lo, hi]`. -/
def clampQ (x lo hi : ℚ) : ℚ := min (max x lo) hi

/-- Modelled from the spec: `BoxList.clip_to_image` (in
`maskrcnn_benchmark/structures/bounding_box.py`, outside this slice) with
`remove_empty=False` clips every coordinate of every box to the image's valid
coordinate range and removes nothing. -/
def clip_to_image (size : ℚ × ℚ) (b : Box) : Box :=
  { x1 := clampQ b.x1 0 size.1
    y1 := clampQ b.y1 0 size.2
    x2 := clampQ b.x2 0 size.1
    y2 := clampQ b.y2 0 size.2 }

/-- Modelled from the spec: `remove_small_boxes` (in
`maskrcnn_benchmark/structures/boxlist_ops.py`, outside this slice) removes
any proposal whose width or height is strictly less than `min_size`, i.e.
keeps exactly the proposals with `min_size ≤ width` and `min_size ≤ height`. -/
def remove_small_boxes (min_size : ℚ) (boxlist : List Proposal) : List Proposal :=
  boxlist.filter (fun p => decide (min_size ≤ boxWidth p.box ∧ min_size ≤ boxHeight p.box))

/-- Area of a box (zero for degenerate boxes). -/
def boxArea (b : Box) : ℚ := max 0 (b.x2 - b.x1) * max 0 (b.y2 - b.y1)

/-- Intersection area of two boxes. -/
def interArea (a b : Box) : ℚ :=
  max 0 (min a.x2 b.x2 - max a.x1 b.x1) * max 0 (min a.y2 b.y2 - max a.y1 b.y1)

/-- Intersection-over-union of two boxes (0 when the union is empty, by the
`ℚ` convention that division by zero is zero). -/
def iou (a b : Box) : ℚ := interArea a b / (boxArea a + boxArea b - interArea a b)

/-- Score-descending order on proposals used to sort before greedy NMS; a
stable sort under this relation keeps the original order on score ties
(the deterministic tie-break the spec asks to fix). -/
def propRel (p q : Proposal) : Prop := q.objectness ≤ p.objectness

instance propRelDec : DecidableRel propRel := fun p q =>
  inferInstanceAs (Decidable (q.objectness ≤ p.objectness))

instance propRelTotal : IsTotal Proposal propRel :=
  ⟨fun p q => le_total q.objectness p.objectness⟩

instance propRelTrans : IsTrans Proposal propRel :=
  ⟨fun _ _ _ h h' => le_trans h' h⟩

/-- Greedy suppression core, with explicit structural fuel (one unit per kept
proposal; the list shrinks by at least one element per step, so `l.length`
fuel never runs out): keep the first (highest-scoring) remaining proposal and
discard every remaining proposal whose IoU with it exceeds the threshold;
recurse on the survivors. Expects its input sorted by descending score. -/
def nmsKeepFuel (thresh : ℚ) : Nat → List Proposal → List Proposal
  | 0, _ => []
  | _, [] => []
  | fuel + 1, p :: rest =>
      p :: nmsKeepFuel thresh fuel
        (rest.filter (fun q => decide (iou p.box q.box ≤ thresh)))

/-- Greedy suppression on a score-sorted list. -/
def nmsKeep (thresh : ℚ) (l : List Proposal) : List Proposal :=
  nmsKeepFuel thresh l.length l

/-- Modelled from the spec: `boxlist_nms` (in
`maskrcnn_benchmark/structures/boxlist_ops.py`, outside this slice): greedy
largest-score-first suppression at IoU threshold `nms_thresh`, output capped
at `max_proposals`. -/
def boxlist_nms (nms_thresh : ℚ) (max_proposals : Nat) (boxlist : List Proposal) :
    List Proposal :=
  (nmsKeep nms_thresh (List.insertionSort propRel boxlist)).take max_proposals

/-- The configuration state of `RPNPostProcessor` (the `box_coder`
collaborator is passed separately to the operations as an opaque decode
function). -/
structure RPNPostProcessor where
  pre_nms_top_n : Nat
  post_nms_top_n : Nat
  nms_thresh : ℚ
  min_size : ℚ
  fpn_post_nms_top_n : Nat
  fpn_post_nms_per_batch : Bool
deriving DecidableEq

/-- `RPNPostProcessor.__init__`: stores the configuration; a `None`
`fpn_post_nms_top_n` defaults to `post_nms_top_n`. No validation is
performed. -/
def RPNPostProcessor.init (pre_nms_top_n post_nms_top_n : Nat)
    (nms_thresh min_size : ℚ) (fpn_post_nms_top_n : Option Nat)
    (fpn_post_nms_per_batch : Bool) : RPNPostProcessor :=
  { pre_nms_top_n := pre_nms_top_n
    post_nms_top_n := post_nms_top_n
    nms_thresh := nms_thresh
    min_size := min_size
    fpn_post_nms_top_n := fpn_post_nms_top_n.getD post_nms_top_n
    fpn_post_nms_per_batch := fpn_post_nms_per_batch }

/-- The order `torch.topk(·, sorted=True)` is modelled by: score strictly
descending, ties broken by ascending original index (a deterministic stable
tie-break, as the spec instructs implementers to fix). -/
def scoreRel (s : List ℚ) (i j : Nat) : Prop :=
  s.getD j 0 < s.getD i 0 ∨ (s.getD i 0 = s.getD j 0 ∧ i ≤ j)

instance scoreRelDec (s : List ℚ) : DecidableRel (scoreRel s) := fun i j =>
  inferInstanceAs (Decidable (_ ∨ _ ∧ _))

instance scoreRelTotal (s : List ℚ) : IsTotal Nat (scoreRel s) := by
  constructor
  intro i j
  rcases lt_trichotomy (s.getD i 0) (s.getD j 0) with h | h | h
  · exact Or.inr (Or.inl h)
  · rcases Nat.le_total i j with hij | hij
    · exact Or.inl (Or.inr ⟨h, hij⟩)
    · exact Or.inr (Or.inr ⟨h.symm, hij⟩)
  · exact Or.inl (Or.inl h)

instance scoreRelTrans (s : List ℚ) : IsTrans Nat (scoreRel s) := by
  constructor
  intro a b c hab hbc
  rcases hab with h1 | ⟨h1, h1i⟩ <;> rcases hbc with h2 | ⟨h2, h2i⟩
  · exact Or.inl (h2.trans h1)
  · exact Or.inl (h2 ▸ h1)
  · exact Or.inl (h1 ▸ h2)
  · exact Or.inr ⟨h1.trans h2, h1i.trans h2i⟩

/-- `values, idx = scores.topk(k, sorted=True)`: the first `k` indices of the
list of all positions sorted by `scoreRel scores`. -/
def topkIdx (scores : List ℚ) (k : Nat) : List Nat :=
  (List.insertionSort (scoreRel scores) (List.range scores.length)).take k

/-- Lines 91–130 of `forward_for_single_feature_map` for one image: sigmoid
the flat objectness, take the per-image top `min(pre_nms_top_n, A·H·W)`
scores, gather the regression deltas and the anchors with the same index
list, decode each gathered (delta, anchor) pair, and pair each decoded box
with its gathered score in the `objectness` field. -/
def decodedStage (pre_nms_top_n : Nat) (sig : ℚ → ℚ) (dec : Delta → Box → Box)
    (anchors : List Box) (objectness : List ℚ) (box_regression : List Delta) :
    List Proposal :=
  let scores := objectness.map sig
  let topk_idx := topkIdx scores (min pre_nms_top_n scores.length)
  let top_scores := topk_idx.map (fun i => scores.getD i 0)
  let top_regression := topk_idx.map (fun i => box_regression.getD i default)
  let top_anchors := topk_idx.map (fun i => anchors.getD i default)
  let proposals := List.zipWith dec top_regression top_anchors
  List.zipWith Proposal.mk proposals top_scores

/-- The per-image body of `forward_for_single_feature_map` (lines 91–146):
decode the top-k proposals, clip them to the image (`remove_empty=False`),
drop the ones below `min_size`, and run capped NMS. -/
def forwardSingleImage (self : RPNPostProcessor) (sig : ℚ → ℚ)
    (dec : Delta → Box → Box) (anchors : BoxList) (objectness : List ℚ)
    (box_regression : List Delta) : List Proposal :=
  let boxlist := decodedStage self.pre_nms_top_n sig dec anchors.bbox objectness
    box_regression
  let boxlist := boxlist.map (fun p => { p with box := clip_to_image anchors.size p.box })
  let boxlist := remove_small_boxes self.min_size boxlist
  boxlist_nms self.nms_thresh self.post_nms_top_n boxlist

/-- `forward_for_single_feature_map`: all batched tensor operations of the
source act per image (the top-k is along `dim=1` and the gathers use
`batch_idx`), so the batch is the per-image computation mapped over the
zipped per-image inputs. -/
def forward_for_single_feature_map (self : RPNPostProcessor) (sig : ℚ → ℚ)
    (dec : Delta → Box → Box) (anchors : List BoxList)
    (objectness : List (List ℚ)) (box_regression : List (List Delta)) :
    List (List Proposal) :=
  (anchors.zip (objectness.zip box_regression)).map
    (fun x => forwardSingleImage self sig dec x.1 x.2.1 x.2.2)

/-- `add_gt_proposals`: per image, strip the targets down to their boxes
(`copy_with_fields([])`), stamp them with `objectness = 1`
(`torch.ones`), and append them to the image's proposals (the `cat_boxlist`
of the source is, per the spec, concatenation preserving boxes and fields). -/
def add_gt_proposals (proposals : List (List Proposal)) (targets : List (List Box)) :
    List (List Proposal) :=
  let gt_boxes := targets.map (fun t => t.map (fun b => Proposal.mk b 1))
  (proposals.zip gt_boxes).map (fun x => x.1 ++ x.2)

/-- The body of the per-image loop of the non-per-batch branch of
`select_over_all_levels` (lines 207–213): per-image descending top
`min(fpn_post_nms_top_n, count)` by objectness. -/
def selectTopPerImage (fpn_post_nms_top_n : Nat) (boxlist : List Proposal) :
    List Proposal :=
  let objectness := boxlist.map Proposal.objectness
  let post_nms_top_n := min fpn_post_nms_top_n objectness.length
  (topkIdx objectness post_nms_top_n).filterMap (fun i => boxlist[i]?)

/-- Boolean-mask indexing `boxlist[mask]`: keep the elements whose mask bit
is true, in order. -/
def maskSelect (l : List α) (mask : List Bool) : List α :=
  (l.zip mask).filterMap (fun x => if x.2 then some x.1 else none)

/-- `tensor.split(box_sizes)`: cut a flat list into consecutive chunks of the
given sizes. -/
def splitList : List α → List Nat → List (List α)
  | _, [] => []
  | l, n :: ns => l.take n :: splitList (l.drop n) ns

/-- `select_over_all_levels` (lines 187–214). Per-batch branch: one flat
ranking of all images' objectness, global top `min(fpn_post_nms_top_n,
total)`, scatter a boolean mask at the selected flat indices, split the mask
by image sizes and mask-index each image. Otherwise: per-image top-k. -/
def select_over_all_levels (self : RPNPostProcessor) (training : Bool)
    (boxlists : List (List Proposal)) : List (List Proposal) :=
  if training && self.fpn_post_nms_per_batch then
    let objectness := (boxlists.map (fun bl => bl.map Proposal.objectness)).flatten
    let box_sizes := boxlists.map List.length
    let post_nms_top_n := min self.fpn_post_nms_top_n objectness.length
    let inds_sorted := topkIdx objectness post_nms_top_n
    let inds_mask := (List.range objectness.length).map (fun i => decide (i ∈ inds_sorted))
    let masks := splitList inds_mask box_sizes
    (boxlists.zip masks).map (fun x => maskSelect x.1 x.2)
  else
    boxlists.map (fun bl => selectTopPerImage self.fpn_post_nms_top_n bl)

/-- Keep the elements of `l` whose position satisfies `P`, in order: the
reference form of boolean-mask selection used to state the per-batch
redistribution property. -/
def keepByIdx (l : List α) (P : Nat → Bool) : List α :=
  ((List.range l.length).zip l).filterMap
    (fun x => if P x.1 then some x.2 else none)

/-- Spec-side formulation of the per-batch mode of `select_over_all_levels`
("select the global top `fpn_post_nms_top_n` by score, then redistribute the
survivors back to their original image, preserving each image's relative
proposal order"): image `i` keeps exactly its proposals whose global flat
index (the offset of image `i` plus the local position) was selected. -/
def specRedistribute (P : Nat → Bool) :
    List (List Proposal) → Nat → List (List Proposal)
  | [], _ => []
  | bl :: rest, off =>
      keepByIdx bl (fun j => P (off + j))
        :: specRedistribute P rest (off + bl.length)

/-- `list(zip(*xss))`: transpose truncated to the shortest row, Python-style
(`d` is only read at positions that exist in every row, but a default is
needed for totality). -/
def zipStar (d : α) (xss : List (List α)) : List (List α) :=
  (List.range (minRowLen xss)).map (fun i => xss.map (fun xs => xs.getD i d))
where
  /-- Length of `zip(*xss)`: the minimum row length (0 for no rows). -/
  minRowLen : List (List α) → Nat
    | [] => 0
    | xs :: rest => (rest.map List.length).foldr Nat.min xs.length

/-- `RPNPostProcessor.forward` (lines 149–185): transpose anchors to
level-major, run the per-level processor, transpose back to image-major and
concatenate each image's levels (`cat_boxlist`), apply the cross-level
selection only when more than one level exists, and finally, in training
with targets given, append the ground-truth proposals. -/
def forward (self : RPNPostProcessor) (training : Bool) (sig : ℚ → ℚ)
    (dec : Delta → Box → Box) (anchors : List (List BoxList))
    (objectness : List (List (List ℚ))) (box_regression : List (List (List Delta)))
    (targets : Option (List (List Box))) : List (List Proposal) :=
  let num_levels := objectness.length
  let anchorsT := zipStar default anchors
  let sampled_boxes := (anchorsT.zip (objectness.zip box_regression)).map
    (fun x => forward_for_single_feature_map self sig dec x.1 x.2.1 x.2.2)
  let boxlists := zipStar [] sampled_boxes
  let boxlists := boxlists.map List.flatten
  let boxlists :=
    if 1 < num_levels then select_over_all_levels self training boxlists else boxlists
  if training && targets.isSome then add_gt_proposals boxlists (targets.getD [])
  else boxlists

/-! ## Basic lemmas about the top-k model -/

theorem topkIdx_length (s : List ℚ) (k : Nat) :
    (topkIdx s k).length = min k s.length := by
  unfold topkIdx
  rw [List.length_take, List.length_insertionSort, List.length_range]

theorem topkIdx_mem_lt {s : List ℚ} {k i : Nat} (h : i ∈ topkIdx s k) :
    i < s.length := by
  unfold topkIdx at h
  have h' := List.mem_of_mem_take h
  rw [List.mem_insertionSort, List.mem_range] at h'
  exact h'

theorem topkIdx_nodup (s : List ℚ) (k : Nat) : (topkIdx s k).Nodup := by
  unfold topkIdx
  exact List.Nodup.sublist (List.take_sublist k _)
    ((List.perm_insertionSort _ _).nodup_iff.mpr (List.nodup_range _))

theorem topkIdx_dominates {s : List ℚ} {k a b : Nat} (ha : a ∈ topkIdx s k)
    (hb : b < s.length) (hnb : b ∉ topkIdx s k) : s.getD b 0 ≤ s.getD a 0 := by
  unfold topkIdx at ha hnb
  set S := List.insertionSort (scoreRel s) (List.range s.length) with hS
  have hsorted : List.Sorted (scoreRel s) S := List.sorted_insertionSort _ _
  have hbS : b ∈ S := by
    rw [hS, List.mem_insertionSort]
    exact List.mem_range.mpr hb
  have hsplit : S.take k ++ S.drop k = S := List.take_append_drop k S
  have hbdrop : b ∈ S.drop k := by
    rw [← hsplit] at hbS
    rcases List.mem_append.mp hbS with h | h
    · exact absurd h hnb
    · exact h
  have hpair : List.Pairwise (scoreRel s) (S.take k ++ S.drop k) := by
    rw [hsplit]
    exact hsorted
  have hr : scoreRel s a b := (List.pairwise_append.mp hpair).2.2 a ha b hbdrop
  rcases hr with h | ⟨h, _⟩
  · exact le_of_lt h
  · exact le_of_eq h.symm

theorem zipWith_map_same (f : β → γ → δ) (g : α → β) (h : α → γ) (l : List α) :
    List.zipWith f (l.map g) (l.map h) = l.map (fun x => f (g x) (h x)) := by
  induction l with
  | nil => rfl
  | cons a l ih => simp [ih]

/-- The decoded stage written as one gather: every output position comes from
a single original flat index, shared by score, delta and anchor. -/
theorem decodedStage_eq_map (pre_nms_top_n : Nat) (sig : ℚ → ℚ)
    (dec : Delta → Box → Box) (anchors : List Box) (objectness : List ℚ)
    (box_regression : List Delta) :
    decodedStage pre_nms_top_n sig dec anchors objectness box_regression =
      (topkIdx (objectness.map sig) (min pre_nms_top_n (objectness.map sig).length)).map
        (fun i => Proposal.mk
          (dec (box_regression.getD i default) (anchors.getD i default))
          ((objectness.map sig).getD i 0)) := by
  unfold decodedStage
  simp only [zipWith_map_same]

example : topkIdx [1, 2, 2, 0] 2 = [1, 2] := by decide

example : topkIdx [1, 2] 5 = [1, 0] := by decide

/-- C1: in `forward_for_single_feature_map`, for every image and every
position `i` among the selected top-k, the box at output position `i` of the
decode stage is decoded from the regression delta and the anchor located at
the same original flat index that was selected for position `i`: score, delta
and anchor are all gathered with the one top-k index list. -/
theorem C1_topk_gather_correspondence (pre_nms_top_n : Nat) (sig : ℚ → ℚ)
    (dec : Delta → Box → Box) (anchors : List Box) (objectness : List ℚ)
    (box_regression : List Delta) :
    decodedStage pre_nms_top_n sig dec anchors objectness box_regression =
      (topkIdx (objectness.map sig) (min pre_nms_top_n (objectness.map sig).length)).map
        (fun i => Proposal.mk
          (dec (box_regression.getD i default) (anchors.getD i default))
          ((objectness.map sig).getD i 0)) :=
  decodedStage_eq_map pre_nms_top_n sig dec anchors objectness box_regression

/-- C6: the per-image top-k selection of `forward_for_single_feature_map`
uses `k = min(pre_nms_top_n, A·H·W)` (in the flat model `A·H·W` is the length
of the flattened objectness): a `pre_nms_top_n` larger than the anchor count
silently clamps to the available count, every selected index stays in range,
and the (total) call does not fail. -/
theorem C6_pre_nms_top_n_clamps (pre_nms_top_n : Nat) (sig : ℚ → ℚ)
    (dec : Delta → Box → Box) (anchors : List Box) (objectness : List ℚ)
    (box_regression : List Delta) :
    (decodedStage pre_nms_top_n sig dec anchors objectness box_regression).length
        = min pre_nms_top_n objectness.length
      ∧ ∀ i ∈ topkIdx (objectness.map sig)
            (min pre_nms_top_n (objectness.map sig).length),
          i < objectness.length := by
  constructor
  · rw [decodedStage_eq_map, List.length_map, topkIdx_length, List.length_map,
      Nat.min_assoc, Nat.min_self]
  · intro i hi
    have h := topkIdx_mem_lt hi
    rwa [List.length_map] at h

theorem C6_witness :
    (decodedStage 5 id (fun _ a => a) [⟨0, 0, 1, 1⟩, ⟨1, 1, 2, 2⟩] [1, 2]
        [(0, 0, 0, 0), (0, 0, 0, 0)]).length = min 5 2
      ∧ (0 : Nat) < 2 :=
  ⟨(C6_pre_nms_top_n_clamps 5 id (fun _ a => a) [⟨0, 0, 1, 1⟩, ⟨1, 1, 2, 2⟩]
      [1, 2] [(0, 0, 0, 0), (0, 0, 0, 0)]).1,
   (C6_pre_nms_top_n_clamps 5 id (fun _ a => a) [⟨0, 0, 1, 1⟩, ⟨1, 1, 2, 2⟩]
      [1, 2] [(0, 0, 0, 0), (0, 0, 0, 0)]).2 0 (by decide)⟩

example :
    forward (RPNPostProcessor.init 1 1 (1/2) 5 none true) true id (fun _ a => a)
      [[⟨[⟨0, 0, 10, 10⟩], (100, 100)⟩]] [[[1]]] [[[(0, 0, 0, 0)]]]
      (some [[⟨0, 0, 0, 10⟩]])
    = [[Proposal.mk ⟨0, 0, 10, 10⟩ 1, Proposal.mk ⟨0, 0, 0, 10⟩ 1]] := by
  with_unfolding_all decide

/-- C10: a `None` `fpn_post_nms_top_n` at construction defaults the
cross-level selection limit to `post_nms_top_n`: the stored field equals
`post_nms_top_n` and every subsequent `select_over_all_levels` call behaves
exactly as if `fpn_post_nms_top_n = post_nms_top_n` had been passed. -/
theorem C10_fpn_post_nms_top_n_defaults (pre post : Nat) (nms ms : ℚ) (pb : Bool) :
    (RPNPostProcessor.init pre post nms ms none pb).fpn_post_nms_top_n = post
      ∧ ∀ (training : Bool) (boxlists : List (List Proposal)),
          select_over_all_levels (RPNPostProcessor.init pre post nms ms none pb)
              training boxlists
            = select_over_all_levels
              (RPNPostProcessor.init pre post nms ms (some post) pb) training boxlists :=
  ⟨rfl, fun _ _ => rfl⟩

/-- C9 counterexample: constructing an `RPNPostProcessor` with a negative
`min_size` and an `nms_thresh` outside `[0, 1]` is not rejected: `__init__`
returns normally and stores the out-of-range values unchanged. -/
theorem C9_counterexample :
    (RPNPostProcessor.init 2000 2000 (-1) (-1) none true).min_size = -1
      ∧ (RPNPostProcessor.init 2000 2000 (-1) (-1) none true).nms_thresh = -1
      ∧ (RPNPostProcessor.init 2000 2000 (-1) (-1) none true).min_size < 0
      ∧ (RPNPostProcessor.init 2000 2000 (-1) (-1) none true).nms_thresh < 0 := by
  refine ⟨rfl, rfl, ?_, ?_⟩ <;> decide

/-- C9 amended: construction performs no validation at all: every
configuration value, in range or not, is accepted and stored unchanged, and
invalid values can only surface later in the pipeline. -/
theorem C9_amended_no_validation (pre post : Nat) (nms ms : ℚ)
    (fpn : Option Nat) (pb : Bool) :
    (RPNPostProcessor.init pre post nms ms fpn pb).min_size = ms
      ∧ (RPNPostProcessor.init pre post nms ms fpn pb).nms_thresh = nms
      ∧ (RPNPostProcessor.init pre post nms ms fpn pb).pre_nms_top_n = pre
      ∧ (RPNPostProcessor.init pre post nms ms fpn pb).post_nms_top_n = post :=
  ⟨rfl, rfl, rfl, rfl⟩

/-! ## Per-image selection (C3) -/

theorem filterMap_getElem_length (idx : List Nat) (l : List α)
    (h : ∀ i ∈ idx, i < l.length) :
    (idx.filterMap (fun i => l[i]?)).length = idx.length := by
  induction idx with
  | nil => rfl
  | cons i idx ih =>
    have hi : i < l.length := h i (List.mem_cons_self i idx)
    simp [List.filterMap_cons, List.getElem?_eq_getElem hi,
      ih (fun j hj => h j (List.mem_cons_of_mem i hj))]

theorem mem_filterMap_getElem {idx : List Nat} {l : List α} {p : α}
    (h : p ∈ idx.filterMap (fun i => l[i]?)) : p ∈ l := by
  rcases List.mem_filterMap.mp h with ⟨i, _, hget⟩
  exact List.getElem?_mem hget

theorem selectTopPerImage_eq (fpn : Nat) (bl : List Proposal) :
    selectTopPerImage fpn bl
      = (topkIdx (bl.map Proposal.objectness) (min fpn bl.length)).filterMap
          (fun i => bl[i]?) := by
  simp only [selectTopPerImage, List.length_map]

theorem selectTopPerImage_length (fpn : Nat) (bl : List Proposal) :
    (selectTopPerImage fpn bl).length = min fpn bl.length := by
  rw [selectTopPerImage_eq, filterMap_getElem_length]
  · rw [topkIdx_length, List.length_map, Nat.min_assoc, Nat.min_self]
  · intro i hi
    have hlt := topkIdx_mem_lt hi
    rwa [List.length_map] at hlt

theorem selectTopPerImage_subset {fpn : Nat} {bl : List Proposal} {p : Proposal}
    (h : p ∈ selectTopPerImage fpn bl) : p ∈ bl := by
  rw [selectTopPerImage_eq] at h
  exact mem_filterMap_getElem h

/-- C3: when not in per-batch mode (not training, or the
`fpn_post_nms_per_batch` flag off), `select_over_all_levels` is a per-image
map — each image's output depends only on that image's proposals — and per
image it keeps exactly the top `min(fpn_post_nms_top_n, count)` proposals by
objectness: the output is the gather of the per-image top-k index list, its
length is the clamped top-n, its members come from the same image, and every
selected index's score dominates every unselected one. -/
theorem C3_per_image_mode (self : RPNPostProcessor) (training : Bool)
    (boxlists : List (List Proposal))
    (h : training = false ∨ self.fpn_post_nms_per_batch = false) :
    select_over_all_levels self training boxlists
        = boxlists.map (selectTopPerImage self.fpn_post_nms_top_n)
      ∧ (∀ boxlist : List Proposal,
          selectTopPerImage self.fpn_post_nms_top_n boxlist
            = (topkIdx (boxlist.map Proposal.objectness)
                (min self.fpn_post_nms_top_n boxlist.length)).filterMap
                (fun i => boxlist[i]?))
      ∧ (∀ boxlist : List Proposal,
          (selectTopPerImage self.fpn_post_nms_top_n boxlist).length
            = min self.fpn_post_nms_top_n boxlist.length)
      ∧ (∀ boxlist : List Proposal,
          ∀ p ∈ selectTopPerImage self.fpn_post_nms_top_n boxlist, p ∈ boxlist)
      ∧ ∀ boxlist : List Proposal,
          ∀ a ∈ topkIdx (boxlist.map Proposal.objectness)
              (min self.fpn_post_nms_top_n boxlist.length),
          ∀ b, b < boxlist.length →
            b ∉ topkIdx (boxlist.map Proposal.objectness)
              (min self.fpn_post_nms_top_n boxlist.length) →
            (boxlist.map Proposal.objectness).getD b 0
              ≤ (boxlist.map Proposal.objectness).getD a 0 := by
  refine ⟨?_, fun bl => selectTopPerImage_eq _ bl,
    fun bl => selectTopPerImage_length _ bl,
    fun bl p hp => selectTopPerImage_subset hp,
    fun bl a ha b hb hnb => topkIdx_dominates ha (by rwa [List.length_map]) hnb⟩
  unfold select_over_all_levels
  rcases h with h | h <;> simp [h]

theorem C3_witness :
    select_over_all_levels (RPNPostProcessor.init 1 1 0 0 none false) true
        [[Proposal.mk ⟨0, 0, 1, 1⟩ 1, Proposal.mk ⟨0, 0, 2, 2⟩ 2]]
      = [[Proposal.mk ⟨0, 0, 1, 1⟩ 1, Proposal.mk ⟨0, 0, 2, 2⟩ 2]].map
          (selectTopPerImage
            (RPNPostProcessor.init 1 1 0 0 none false).fpn_post_nms_top_n)
      ∧ (selectTopPerImage
            (RPNPostProcessor.init 1 1 0 0 none false).fpn_post_nms_top_n
            [Proposal.mk ⟨0, 0, 1, 1⟩ 1, Proposal.mk ⟨0, 0, 2, 2⟩ 2]).length
          = min (RPNPostProcessor.init 1 1 0 0 none false).fpn_post_nms_top_n 2 :=
  ⟨(C3_per_image_mode (RPNPostProcessor.init 1 1 0 0 none false) true
      [[Proposal.mk ⟨0, 0, 1, 1⟩ 1, Proposal.mk ⟨0, 0, 2, 2⟩ 2]] (Or.inr rfl)).1,
   (C3_per_image_mode (RPNPostProcessor.init 1 1 0 0 none false) true
      [[Proposal.mk ⟨0, 0, 1, 1⟩ 1, Proposal.mk ⟨0, 0, 2, 2⟩ 2]]
      (Or.inr rfl)).2.2.1
     [Proposal.mk ⟨0, 0, 1, 1⟩ 1, Proposal.mk ⟨0, 0, 2, 2⟩ 2]⟩

/-- C5: with exactly one feature level, `forward` skips the cross-level
selection entirely: the returned per-image proposal sets (before any
ground-truth injection, i.e. with `targets = none`) are exactly the
per-image concatenations of the per-level outputs, with no
`fpn_post_nms_top_n` cap applied. -/
theorem C5_single_level_skip (self : RPNPostProcessor) (training : Bool)
    (sig : ℚ → ℚ) (dec : Delta → Box → Box) (anchors : List (List BoxList))
    (objectness : List (List (List ℚ)))
    (box_regression : List (List (List Delta)))
    (h : objectness.length = 1) :
    forward self training sig dec anchors objectness box_regression none
      = (zipStar []
          (((zipStar default anchors).zip (objectness.zip box_regression)).map
            (fun x => forward_for_single_feature_map self sig dec
              x.1 x.2.1 x.2.2))).map List.flatten := by
  unfold forward
  rw [h]
  simp

theorem C5_witness :
    forward (RPNPostProcessor.init 2 2 0 0 none true) true id (fun _ a => a)
        [[⟨[⟨0, 0, 4, 4⟩], (10, 10)⟩]] [[[1]]] [[[(0, 0, 0, 0)]]] none
      = (zipStar []
          (((zipStar default [[⟨[⟨0, 0, 4, 4⟩], (10, 10)⟩]]).zip
              ([[[1]]].zip [[[(0, 0, 0, 0)]]])).map
            (fun x => forward_for_single_feature_map
              (RPNPostProcessor.init 2 2 0 0 none true) id (fun _ a => a)
              x.1 x.2.1 x.2.2))).map List.flatten :=
  C5_single_level_skip (RPNPostProcessor.init 2 2 0 0 none true) true id
    (fun _ a => a) [[⟨[⟨0, 0, 4, 4⟩], (10, 10)⟩]] [[[1]]] [[[(0, 0, 0, 0)]]] rfl

/-! ## Ground-truth injection (C4) -/

theorem add_gt_proposals_getD (proposals : List (List Proposal))
    (targets : List (List Box)) (i : Nat) (h1 : i < proposals.length)
    (h2 : i < targets.length) :
    (add_gt_proposals proposals targets).getD i []
      = proposals.getD i []
        ++ (targets.getD i []).map (fun b => Proposal.mk b 1) := by
  induction proposals generalizing targets i with
  | nil => simp at h1
  | cons bl bls ih =>
    cases targets with
    | nil => simp at h2
    | cons t ts =>
      cases i with
      | zero => simp [add_gt_proposals]
      | succ n =>
        simpa [add_gt_proposals] using
          ih ts n (Nat.lt_of_succ_lt_succ h1) (Nat.lt_of_succ_lt_succ h2)

/-- C4: in training mode with targets provided, `forward` appends each
image's ground-truth boxes strictly after the final cross-level selection:
the output is exactly `add_gt_proposals` applied to the fully selected
proposals (the `targets = none` output), so injected boxes are never subject
to the `fpn_post_nms_top_n` cap or NMS; per image the previously selected
proposals are kept unchanged as a prefix (no removal, no reorder) and every
injected ground-truth box appears in the output with objectness exactly 1. -/
theorem C4_gt_injection_after_selection (self : RPNPostProcessor) (sig : ℚ → ℚ)
    (dec : Delta → Box → Box) (anchors : List (List BoxList))
    (objectness : List (List (List ℚ)))
    (box_regression : List (List (List Delta))) (targets : List (List Box)) :
    forward self true sig dec anchors objectness box_regression (some targets)
        = add_gt_proposals
            (forward self true sig dec anchors objectness box_regression none)
            targets
      ∧ (∀ i,
          i < (forward self true sig dec anchors objectness box_regression
            none).length →
          i < targets.length →
          (forward self true sig dec anchors objectness box_regression
              (some targets)).getD i []
            = (forward self true sig dec anchors objectness box_regression
                none).getD i []
              ++ (targets.getD i []).map (fun b => Proposal.mk b 1))
      ∧ ∀ i,
          i < (forward self true sig dec anchors objectness box_regression
            none).length →
          i < targets.length →
          ∀ b ∈ targets.getD i [],
            Proposal.mk b 1
              ∈ (forward self true sig dec anchors objectness box_regression
                  (some targets)).getD i [] := by
  have hmain :
      forward self true sig dec anchors objectness box_regression (some targets)
        = add_gt_proposals
            (forward self true sig dec anchors objectness box_regression none)
            targets := rfl
  refine ⟨hmain, ?_, ?_⟩
  · intro i h1 h2
    rw [hmain]
    exact add_gt_proposals_getD _ _ i h1 h2
  · intro i h1 h2 b hb
    rw [hmain, add_gt_proposals_getD _ _ i h1 h2]
    exact List.mem_append_right _ (List.mem_map_of_mem _ hb)

theorem C4_witness :
    forward (RPNPostProcessor.init 1 1 1 0 none true) true id (fun _ a => a)
        [[⟨[⟨0, 0, 10, 10⟩], (100, 100)⟩]] [[[1]]] [[[(0, 0, 0, 0)]]]
        (some [[⟨2, 2, 6, 6⟩]])
      = add_gt_proposals
          (forward (RPNPostProcessor.init 1 1 1 0 none true) true id
            (fun _ a => a) [[⟨[⟨0, 0, 10, 10⟩], (100, 100)⟩]] [[[1]]]
            [[[(0, 0, 0, 0)]]] none)
          [[⟨2, 2, 6, 6⟩]]
      ∧ Proposal.mk ⟨2, 2, 6, 6⟩ 1
        ∈ (forward (RPNPostProcessor.init 1 1 1 0 none true) true id
            (fun _ a => a) [[⟨[⟨0, 0, 10, 10⟩], (100, 100)⟩]] [[[1]]]
            [[[(0, 0, 0, 0)]]] (some [[⟨2, 2, 6, 6⟩]])).getD 0 [] :=
  ⟨(C4_gt_injection_after_selection (RPNPostProcessor.init 1 1 1 0 none true)
      id (fun _ a => a) [[⟨[⟨0, 0, 10, 10⟩], (100, 100)⟩]] [[[1]]]
      [[[(0, 0, 0, 0)]]] [[⟨2, 2, 6, 6⟩]]).1,
   (C4_gt_injection_after_selection (RPNPostProcessor.init 1 1 1 0 none true)
      id (fun _ a => a) [[⟨[⟨0, 0, 10, 10⟩], (100, 100)⟩]] [[[1]]]
      [[[(0, 0, 0, 0)]]] [[⟨2, 2, 6, 6⟩]]).2.2 0
     (by with_unfolding_all decide) (by decide) ⟨2, 2, 6, 6⟩
     (by with_unfolding_all decide)⟩

/-! ## Membership through the pipeline stages (C7) -/

theorem nmsKeepFuel_subset (thresh : ℚ) :
    ∀ (fuel : Nat) (l : List Proposal), ∀ q ∈ nmsKeepFuel thresh fuel l, q ∈ l := by
  intro fuel
  induction fuel with
  | zero => intro l q hq; simp [nmsKeepFuel] at hq
  | succ n ih =>
    intro l q hq
    cases l with
    | nil => simp [nmsKeepFuel] at hq
    | cons p rest =>
      simp only [nmsKeepFuel] at hq
      rcases List.mem_cons.mp hq with h | h
      · exact h ▸ List.mem_cons_self p rest
      · exact List.mem_cons_of_mem p (List.mem_of_mem_filter (ih _ q h))

theorem boxlist_nms_subset {thresh : ℚ} {cap : Nat} {bl : List Proposal}
    {p : Proposal} (h : p ∈ boxlist_nms thresh cap bl) : p ∈ bl := by
  unfold boxlist_nms nmsKeep at h
  have h1 := List.mem_of_mem_take h
  have h2 := nmsKeepFuel_subset thresh _ _ p h1
  rwa [List.mem_insertionSort] at h2

theorem mem_remove_small_boxes {ms : ℚ} {bl : List Proposal} {p : Proposal}
    (h : p ∈ remove_small_boxes ms bl) :
    p ∈ bl ∧ ms ≤ boxWidth p.box ∧ ms ≤ boxHeight p.box := by
  unfold remove_small_boxes at h
  have h1 := List.mem_of_mem_filter h
  have h2 := List.of_mem_filter h
  simp only [decide_eq_true_eq] at h2
  exact ⟨h1, h2⟩

theorem forwardSingleImage_min_size {self : RPNPostProcessor} {sig : ℚ → ℚ}
    {dec : Delta → Box → Box} {anchors : BoxList} {objectness : List ℚ}
    {box_regression : List Delta} {p : Proposal}
    (h : p ∈ forwardSingleImage self sig dec anchors objectness box_regression) :
    self.min_size ≤ boxWidth p.box ∧ self.min_size ≤ boxHeight p.box := by
  simp only [forwardSingleImage] at h
  exact (mem_remove_small_boxes (boxlist_nms_subset h)).2

theorem forward_for_single_feature_map_min_size {self : RPNPostProcessor}
    {sig : ℚ → ℚ} {dec : Delta → Box → Box} {anchors : List BoxList}
    {objectness : List (List ℚ)} {box_regression : List (List Delta)}
    {lvl : List Proposal} {p : Proposal}
    (hl : lvl ∈ forward_for_single_feature_map self sig dec anchors objectness
      box_regression) (hp : p ∈ lvl) :
    self.min_size ≤ boxWidth p.box ∧ self.min_size ≤ boxHeight p.box := by
  unfold forward_for_single_feature_map at hl
  rcases List.mem_map.mp hl with ⟨x, _, rfl⟩
  exact forwardSingleImage_min_size hp

theorem maskSelect_subset {l : List α} {mask : List Bool} {p : α}
    (h : p ∈ maskSelect l mask) : p ∈ l := by
  unfold maskSelect at h
  rcases List.mem_filterMap.mp h with ⟨⟨a, b⟩, hx, hsome⟩
  cases b with
  | false => simp at hsome
  | true =>
    simp only [if_pos] at hsome
    cases hsome
    exact (List.of_mem_zip hx).1

theorem select_over_all_levels_mem {self : RPNPostProcessor} {training : Bool}
    {boxlists : List (List Proposal)} {bl : List Proposal} {p : Proposal}
    (hbl : bl ∈ select_over_all_levels self training boxlists) (hp : p ∈ bl) :
    ∃ bl0 ∈ boxlists, p ∈ bl0 := by
  simp only [select_over_all_levels] at hbl
  split at hbl
  · rcases List.mem_map.mp hbl with ⟨⟨l, m⟩, hx, rfl⟩
    exact ⟨l, (List.of_mem_zip hx).1, maskSelect_subset hp⟩
  · rcases List.mem_map.mp hbl with ⟨bl0, hbl0, rfl⟩
    exact ⟨bl0, hbl0, selectTopPerImage_subset hp⟩

theorem getD_nil_mem {xs : List (List α)} {i : Nat} {p : α}
    (h : p ∈ xs.getD i []) : xs.getD i [] ∈ xs := by
  by_cases hi : i < xs.length
  · rw [List.getD_eq_getElem?_getD, List.getElem?_eq_getElem hi]
    exact List.getElem_mem hi
  · rw [List.getD_eq_getElem?_getD,
      List.getElem?_eq_none (Nat.le_of_not_lt hi)] at h
    simp at h

theorem mem_zipStar_flatten {xss : List (List (List α))} {bl : List α} {p : α}
    (hbl : bl ∈ (zipStar [] xss).map List.flatten) (hp : p ∈ bl) :
    ∃ lvl ∈ xss, ∃ cell ∈ lvl, p ∈ cell := by
  rcases List.mem_map.mp hbl with ⟨row, hrow, rfl⟩
  rcases List.mem_flatten.mp hp with ⟨cell, hcell, hpc⟩
  unfold zipStar at hrow
  rcases List.mem_map.mp hrow with ⟨i, _, rfl⟩
  rcases List.mem_map.mp hcell with ⟨lvl, hlvl, rfl⟩
  exact ⟨lvl, hlvl, lvl.getD i [], getD_nil_mem hpc, hpc⟩

theorem forward_none_min_size (self : RPNPostProcessor) (training : Bool)
    (sig : ℚ → ℚ) (dec : Delta → Box → Box) (anchors : List (List BoxList))
    (objectness : List (List (List ℚ)))
    (box_regression : List (List (List Delta))) :
    ∀ bl ∈ forward self training sig dec anchors objectness box_regression none,
      ∀ p ∈ bl,
        self.min_size ≤ boxWidth p.box ∧ self.min_size ≤ boxHeight p.box := by
  intro bl hbl p hp
  simp only [forward, Option.isSome_none, Bool.and_false] at hbl
  rw [if_neg Bool.false_ne_true] at hbl
  split at hbl
  · rcases select_over_all_levels_mem hbl hp with ⟨bl0, hbl0, hpb⟩
    rcases mem_zipStar_flatten hbl0 hpb with ⟨lvl, hlvl, cell, hcell, hqc⟩
    rcases List.mem_map.mp hlvl with ⟨x, _, rfl⟩
    exact forward_for_single_feature_map_min_size hcell hqc
  · rcases mem_zipStar_flatten hbl hp with ⟨lvl, hlvl, cell, hcell, hqc⟩
    rcases List.mem_map.mp hlvl with ⟨x, _, rfl⟩
    exact forward_for_single_feature_map_min_size hcell hqc

/-- C7 amended: no proposal whose width or height is strictly below
`min_size` ever appears in the output of `forward_for_single_feature_map`,
and hence none appears in the pipeline output as long as no ground truth is
injected (`targets = none`, so in particular during inference); injected
ground-truth boxes are the one exception, as they bypass the min-size
filter. -/
theorem C7_min_size_never_in_output (self : RPNPostProcessor) (sig : ℚ → ℚ)
    (dec : Delta → Box → Box) :
    (∀ (anchors : List BoxList) (objectness : List (List ℚ))
        (box_regression : List (List Delta)),
      ∀ lvl ∈ forward_for_single_feature_map self sig dec anchors objectness
          box_regression,
        ∀ p ∈ lvl,
          self.min_size ≤ boxWidth p.box ∧ self.min_size ≤ boxHeight p.box)
      ∧ ∀ (training : Bool) (anchors : List (List BoxList))
          (objectness : List (List (List ℚ)))
          (box_regression : List (List (List Delta))),
          ∀ bl ∈ forward self training sig dec anchors objectness
              box_regression none,
            ∀ p ∈ bl,
              self.min_size ≤ boxWidth p.box ∧ self.min_size ≤ boxHeight p.box :=
  ⟨fun _ _ _ _ hl _ hp => forward_for_single_feature_map_min_size hl hp,
   fun tr a o r => forward_none_min_size self tr sig dec a o r⟩

theorem C7_witness :
    (RPNPostProcessor.init 1 1 1 5 none true).min_size
        ≤ boxWidth (Proposal.mk ⟨0, 0, 10, 10⟩ 1).box
      ∧ (RPNPostProcessor.init 1 1 1 5 none true).min_size
        ≤ boxHeight (Proposal.mk ⟨0, 0, 10, 10⟩ 1).box :=
  (C7_min_size_never_in_output (RPNPostProcessor.init 1 1 1 5 none true) id
      (fun _ a => a)).1 [⟨[⟨0, 0, 10, 10⟩], (100, 100)⟩] [[1]] [[(0, 0, 0, 0)]]
    [Proposal.mk ⟨0, 0, 10, 10⟩ 1] (by with_unfolding_all decide)
    (Proposal.mk ⟨0, 0, 10, 10⟩ 1) (by with_unfolding_all decide)

/-- C7 counterexample: in training mode with a degenerate ground-truth box
and `min_size = 5`, the pipeline output of `forward` contains a proposal of
width `0 < min_size`: injected ground-truth boxes bypass the min-size
filter, so the claim's extension to "any pipeline output" fails. -/
theorem C7_counterexample :
    Proposal.mk ⟨0, 0, 0, 10⟩ 1
        ∈ (forward (RPNPostProcessor.init 1 1 1 5 none true) true id
            (fun _ a => a) [[⟨[⟨0, 0, 10, 10⟩], (100, 100)⟩]] [[[1]]]
            [[[(0, 0, 0, 0)]]] (some [[⟨0, 0, 0, 10⟩]])).getD 0 []
      ∧ boxWidth ⟨0, 0, 0, 10⟩
        < (RPNPostProcessor.init 1 1 1 5 none true).min_size := by
  with_unfolding_all decide

/-- C8 amended: the clipping step clips every coordinate into the image's
range and removes no box (the `remove_empty=False` policy): it is a pure map
preserving the proposal count, so degenerate zero-area boxes survive the
clip step. The following min-size filter removes every degenerate box
exactly when `min_size > 0`; with `min_size ≤ 0` (the repository's default
configuration is `MIN_SIZE = 0`) a degenerate box also passes the filter. -/
theorem C8_clip_then_min_size :
    (∀ (size : ℚ × ℚ) (bl : List Proposal),
        (bl.map (fun p => { p with box := clip_to_image size p.box })).length
          = bl.length)
      ∧ (∀ (size : ℚ × ℚ) (b : Box), 0 ≤ size.1 → 0 ≤ size.2 →
          0 ≤ (clip_to_image size b).x1 ∧ (clip_to_image size b).x1 ≤ size.1
            ∧ 0 ≤ (clip_to_image size b).y1 ∧ (clip_to_image size b).y1 ≤ size.2
            ∧ 0 ≤ (clip_to_image size b).x2 ∧ (clip_to_image size b).x2 ≤ size.1
            ∧ 0 ≤ (clip_to_image size b).y2 ∧ (clip_to_image size b).y2 ≤ size.2)
      ∧ (∀ (ms : ℚ) (bl : List Proposal), 0 < ms →
          ∀ p ∈ remove_small_boxes ms bl,
            0 < boxWidth p.box ∧ 0 < boxHeight p.box)
      ∧ ∀ (ms : ℚ) (bl : List Proposal) (p : Proposal), ms ≤ 0 → p ∈ bl →
          0 ≤ boxWidth p.box → 0 ≤ boxHeight p.box →
          p ∈ remove_small_boxes ms bl := by
  refine ⟨fun _ bl => List.length_map bl _, fun size b h1 h2 => ?_, ?_, ?_⟩
  · exact ⟨le_min (le_max_right _ _) h1, min_le_right _ _,
      le_min (le_max_right _ _) h2, min_le_right _ _,
      le_min (le_max_right _ _) h1, min_le_right _ _,
      le_min (le_max_right _ _) h2, min_le_right _ _⟩
  · intro ms bl hms p hp
    rcases mem_remove_small_boxes hp with ⟨_, hw, hh⟩
    exact ⟨lt_of_lt_of_le hms hw, lt_of_lt_of_le hms hh⟩
  · intro ms bl p hms hp hw hh
    unfold remove_small_boxes
    refine List.mem_filter.mpr ⟨hp, ?_⟩
    simp only [decide_eq_true_eq]
    exact ⟨le_trans hms hw, le_trans hms hh⟩

theorem C8_witness :
    ([Proposal.mk ⟨0, 0, 1, 1⟩ 1].map
        (fun p => { p with box := clip_to_image ((10 : ℚ), (10 : ℚ)) p.box })).length
        = 1
      ∧ (0 : ℚ) ≤ (clip_to_image ((10 : ℚ), (10 : ℚ)) ⟨-5, -5, 20, 20⟩).x1
      ∧ (0 : ℚ) < boxWidth (Proposal.mk ⟨0, 0, 3, 3⟩ 1).box
      ∧ Proposal.mk ⟨0, 0, 0, 10⟩ 1
        ∈ remove_small_boxes 0 [Proposal.mk ⟨0, 0, 0, 10⟩ 1] :=
  ⟨(C8_clip_then_min_size).1 (10, 10) [Proposal.mk ⟨0, 0, 1, 1⟩ 1],
   ((C8_clip_then_min_size).2.1 (10, 10) ⟨-5, -5, 20, 20⟩ (by decide)
      (by decide)).1,
   ((C8_clip_then_min_size).2.2.1 1 [Proposal.mk ⟨0, 0, 3, 3⟩ 1] (by decide)
      (Proposal.mk ⟨0, 0, 3, 3⟩ 1) (by with_unfolding_all decide)).1,
   (C8_clip_then_min_size).2.2.2 0 [Proposal.mk ⟨0, 0, 0, 10⟩ 1]
      (Proposal.mk ⟨0, 0, 0, 10⟩ 1) (by decide) (by decide)
      (by with_unfolding_all decide) (by with_unfolding_all decide)⟩

/-- C8 counterexample: with `min_size = 0` (the repository default), an
anchor decoded outside the image is clipped to a zero-width, zero-height box
which then *survives* the min-size filter and reaches the output of
`forward_for_single_feature_map`: it is false that every degenerate box
produced by clipping is removed by the following min-size filter step. -/
theorem C8_counterexample :
    Proposal.mk ⟨10, 10, 10, 10⟩ 1
        ∈ (forward_for_single_feature_map
            (RPNPostProcessor.init 1 1 1 0 none true) id (fun _ a => a)
            [⟨[⟨20, 20, 30, 30⟩], (10, 10)⟩] [[1]] [[(0, 0, 0, 0)]]).getD 0 []
      ∧ boxWidth ⟨10, 10, 10, 10⟩ = 0 ∧ boxHeight ⟨10, 10, 10, 10⟩ = 0 := by
  with_unfolding_all decide

/-! ## Per-batch selection (C2) -/

theorem keepByIdx_cons (a : α) (l : List α) (P : Nat → Bool) :
    keepByIdx (a :: l) P
      = (if P 0 then [a] else []) ++ keepByIdx l (fun j => P (j + 1)) := by
  unfold keepByIdx
  rw [List.length_cons, List.range_succ_eq_map, List.zip_cons_cons,
    List.filterMap_cons, List.zip_map_left, List.filterMap_map]
  by_cases h : P 0
  · simp only [if_pos h]
    congr 1
  · simp only [if_neg h, List.nil_append]
    congr 1

theorem maskSelect_cons (a : α) (l : List α) (b : Bool) (mask : List Bool) :
    maskSelect (a :: l) (b :: mask)
      = (if b then [a] else []) ++ maskSelect l mask := by
  cases b <;> simp [maskSelect]

theorem maskSelect_range_map (l : List α) (g : Nat → Bool) :
    maskSelect l ((List.range l.length).map g) = keepByIdx l g := by
  induction l generalizing g with
  | nil => rfl
  | cons a t ih =>
    rw [List.length_cons, List.range_succ_eq_map, List.map_cons, maskSelect_cons,
      List.map_map, keepByIdx_cons]
    congr 1
    exact ih (g ∘ Nat.succ)

theorem select_per_batch_redistribute (bls : List (List Proposal))
    (g : Nat → Bool) : ∀ off : Nat,
    (bls.zip (splitList
        ((List.range ((bls.map List.length).sum)).map (fun j => g (off + j)))
        (bls.map List.length))).map (fun x => maskSelect x.1 x.2)
      = specRedistribute g bls off := by
  induction bls with
  | nil => intro off; rfl
  | cons bl rest ih =>
    intro off
    rw [List.map_cons, List.sum_cons, List.range_add, List.map_append]
    simp only [splitList]
    rw [List.take_left' (by rw [List.length_map, List.length_range]),
      List.drop_left' (by rw [List.length_map, List.length_range]),
      List.zip_cons_cons, List.map_cons, maskSelect_range_map, List.map_map]
    have harr : ((fun j => g (off + j)) ∘ (fun j => bl.length + j))
        = fun j => g (off + bl.length + j) := by
      funext j
      simp [Function.comp, Nat.add_assoc]
    rw [harr, ih (off + bl.length)]
    rfl

theorem select_per_batch_redistribute_zero (bls : List (List Proposal))
    (g : Nat → Bool) :
    (bls.zip (splitList
        ((List.range ((bls.map List.length).sum)).map g)
        (bls.map List.length))).map (fun x => maskSelect x.1 x.2)
      = specRedistribute g bls 0 := by
  have h := select_per_batch_redistribute bls g 0
  simpa using h

theorem keepByIdx_sublist (l : List α) (P : Nat → Bool) :
    List.Sublist (keepByIdx l P) l := by
  induction l generalizing P with
  | nil => simp [keepByIdx]
  | cons a t ih =>
    rw [keepByIdx_cons]
    by_cases h : P 0
    · simp only [if_pos h, List.singleton_append]
      exact List.Sublist.cons₂ a (ih _)
    · simp only [if_neg h, List.nil_append]
      exact List.Sublist.cons a (ih _)

theorem specRedistribute_getD_sublist (P : Nat → Bool) :
    ∀ (bls : List (List Proposal)) (off i : Nat),
      List.Sublist ((specRedistribute P bls off).getD i []) (bls.getD i []) := by
  intro bls
  induction bls with
  | nil =>
    intro off i
    simp [specRedistribute]
  | cons bl rest ih =>
    intro off i
    cases i with
    | zero => simpa [specRedistribute] using keepByIdx_sublist bl _
    | succ n => simpa [specRedistribute] using ih (off + bl.length) n

theorem keepByIdx_length (l : List α) (P : Nat → Bool) :
    (keepByIdx l P).length = ((List.range l.length).filter P).length := by
  induction l generalizing P with
  | nil => rfl
  | cons a t ih =>
    have hcomp : (List.range t.length).filter (P ∘ Nat.succ)
        = (List.range t.length).filter (fun j => P (j + 1)) := rfl
    rw [keepByIdx_cons, List.length_append, List.length_cons,
      List.range_succ_eq_map, List.filter_cons, List.filter_map, hcomp,
      ih (fun j => P (j + 1))]
    by_cases h : P 0 <;> simp [h, Nat.add_comm]

theorem specRedistribute_sum_length (P : Nat → Bool) :
    ∀ (bls : List (List Proposal)) (off : Nat),
      ((specRedistribute P bls off).map List.length).sum
        = ((List.range ((bls.map List.length).sum)).filter
            (fun j => P (off + j))).length := by
  intro bls
  induction bls with
  | nil => intro off; rfl
  | cons bl rest ih =>
    intro off
    simp only [specRedistribute, List.map_cons, List.sum_cons]
    rw [List.range_add, List.filter_append, List.length_append]
    congr 1
    · exact keepByIdx_length bl _
    · rw [ih (off + bl.length), List.filter_map, List.length_map]
      have hfe : ((fun j => P (off + j)) ∘ fun x => bl.length + x)
          = fun j => P (off + bl.length + j) := by
        funext j
        simp [Function.comp, Nat.add_assoc]
      rw [hfe]

theorem filter_range_mem_perm (inds : List Nat) (total : Nat)
    (hnd : inds.Nodup) (hlt : ∀ i ∈ inds, i < total) :
    ((List.range total).filter (fun j => decide (j ∈ inds))).Perm inds := by
  apply (List.perm_ext_iff_of_nodup ((List.nodup_range total).filter _) hnd).mpr
  intro a
  simp only [List.mem_filter, List.mem_range, decide_eq_true_eq]
  constructor
  · rintro ⟨-, h⟩
    exact h
  · intro h
    exact ⟨hlt a h, h⟩

/-- C2: in training with `fpn_post_nms_per_batch` set, `select_over_all_levels`
pools all images' objectness into one flat ranking and keeps the global top
`min(fpn_post_nms_top_n, total)`: the result redistributes exactly the
selected flat indices back to their original images (`specRedistribute`),
the selected index list has length `min(fpn_post_nms_top_n, total)`, is
duplicate-free, every selected score dominates every unselected score,
within each image the survivors keep their original relative order
(sublist), and the total number of survivors is `min(fpn_post_nms_top_n,
total)`. -/
theorem C2_per_batch_mode (self : RPNPostProcessor) (training : Bool)
    (boxlists : List (List Proposal))
    (h1 : training = true) (h2 : self.fpn_post_nms_per_batch = true) :
    select_over_all_levels self training boxlists
        = specRedistribute
            (fun i => decide (i ∈ topkIdx
              ((boxlists.map (fun bl => bl.map Proposal.objectness)).flatten)
              (min self.fpn_post_nms_top_n
                ((boxlists.map (fun bl =>
                  bl.map Proposal.objectness)).flatten).length)))
            boxlists 0
      ∧ (topkIdx ((boxlists.map (fun bl => bl.map Proposal.objectness)).flatten)
            (min self.fpn_post_nms_top_n
              ((boxlists.map (fun bl =>
                bl.map Proposal.objectness)).flatten).length)).length
          = min self.fpn_post_nms_top_n
              ((boxlists.map (fun bl => bl.map Proposal.objectness)).flatten).length
      ∧ (topkIdx ((boxlists.map (fun bl => bl.map Proposal.objectness)).flatten)
            (min self.fpn_post_nms_top_n
              ((boxlists.map (fun bl =>
                bl.map Proposal.objectness)).flatten).length)).Nodup
      ∧ (∀ a ∈ topkIdx ((boxlists.map (fun bl =>
              bl.map Proposal.objectness)).flatten)
            (min self.fpn_post_nms_top_n
              ((boxlists.map (fun bl =>
                bl.map Proposal.objectness)).flatten).length),
          ∀ b, b < ((boxlists.map (fun bl =>
              bl.map Proposal.objectness)).flatten).length →
            b ∉ topkIdx ((boxlists.map (fun bl =>
                bl.map Proposal.objectness)).flatten)
              (min self.fpn_post_nms_top_n
                ((boxlists.map (fun bl =>
                  bl.map Proposal.objectness)).flatten).length) →
            ((boxlists.map (fun bl => bl.map Proposal.objectness)).flatten).getD b 0
              ≤ ((boxlists.map (fun bl =>
                  bl.map Proposal.objectness)).flatten).getD a 0)
      ∧ (∀ i, List.Sublist
          ((select_over_all_levels self training boxlists).getD i [])
          (boxlists.getD i []))
      ∧ ((select_over_all_levels self training boxlists).map List.length).sum
          = min self.fpn_post_nms_top_n
              ((boxlists.map (fun bl =>
                bl.map Proposal.objectness)).flatten).length := by
  have hlen : ((boxlists.map (fun bl => bl.map Proposal.objectness)).flatten).length
      = (boxlists.map List.length).sum := by
    rw [List.length_flatten, List.map_map]
    have hcomp2 :
        (List.length ∘ fun bl : List Proposal => List.map Proposal.objectness bl)
          = fun bl : List Proposal => bl.length := by
      funext bl
      simp
    rw [hcomp2]
  have hcond : (training && self.fpn_post_nms_per_batch) = true := by
    simp [h1, h2]
  have hmain : select_over_all_levels self training boxlists
      = specRedistribute
          (fun i => decide (i ∈ topkIdx
            ((boxlists.map (fun bl => bl.map Proposal.objectness)).flatten)
            (min self.fpn_post_nms_top_n
              ((boxlists.map (fun bl =>
                bl.map Proposal.objectness)).flatten).length)))
          boxlists 0 := by
    simp only [select_over_all_levels]
    rw [if_pos hcond, hlen]
    exact select_per_batch_redistribute_zero boxlists _
  refine ⟨hmain, (topkIdx_length _ _).trans (by rw [Nat.min_assoc, Nat.min_self]),
    topkIdx_nodup _ _, fun a ha b hb hnb => topkIdx_dominates ha hb hnb,
    ?_, ?_⟩
  · intro i
    rw [hmain]
    exact specRedistribute_getD_sublist _ boxlists 0 i
  · rw [hmain, specRedistribute_sum_length]
    have hz : (fun j : Nat => decide ((0 + j) ∈ topkIdx
          ((boxlists.map (fun bl => bl.map Proposal.objectness)).flatten)
          (min self.fpn_post_nms_top_n
            ((boxlists.map (fun bl =>
              bl.map Proposal.objectness)).flatten).length)))
        = fun j : Nat => decide (j ∈ topkIdx
          ((boxlists.map (fun bl => bl.map Proposal.objectness)).flatten)
          (min self.fpn_post_nms_top_n
            ((boxlists.map (fun bl =>
              bl.map Proposal.objectness)).flatten).length)) := by
      funext j
      simp
    rw [hz, (filter_range_mem_perm _ _ (topkIdx_nodup _ _) ?_).length_eq,
      topkIdx_length, Nat.min_assoc, Nat.min_self]
    intro i hi
    have hlt := topkIdx_mem_lt hi
    rwa [hlen] at hlt

example :
    select_over_all_levels (RPNPostProcessor.init 2 2 1 0 (some 2) true) true
        [[Proposal.mk ⟨0, 0, 1, 1⟩ 3],
         [Proposal.mk ⟨0, 0, 2, 2⟩ 1, Proposal.mk ⟨0, 0, 3, 3⟩ 5]]
      = [[Proposal.mk ⟨0, 0, 1, 1⟩ 3], [Proposal.mk ⟨0, 0, 3, 3⟩ 5]] := by
  with_unfolding_all decide

theorem C2_witness :
    select_over_all_levels (RPNPostProcessor.init 2 2 1 0 (some 2) true) true
        [[Proposal.mk ⟨0, 0, 1, 1⟩ 3],
         [Proposal.mk ⟨0, 0, 2, 2⟩ 1, Proposal.mk ⟨0, 0, 3, 3⟩ 5]]
      = specRedistribute
          (fun i => decide (i ∈ topkIdx
            (([[Proposal.mk ⟨0, 0, 1, 1⟩ 3],
               [Proposal.mk ⟨0, 0, 2, 2⟩ 1, Proposal.mk ⟨0, 0, 3, 3⟩ 5]].map
                (fun bl => bl.map Proposal.objectness)).flatten)
            (min (RPNPostProcessor.init 2 2 1 0 (some 2) true).fpn_post_nms_top_n
              (([[Proposal.mk ⟨0, 0, 1, 1⟩ 3],
                 [Proposal.mk ⟨0, 0, 2, 2⟩ 1, Proposal.mk ⟨0, 0, 3, 3⟩ 5]].map
                  (fun bl => bl.map Proposal.objectness)).flatten).length)))
          [[Proposal.mk ⟨0, 0, 1, 1⟩ 3],
           [Proposal.mk ⟨0, 0, 2, 2⟩ 1, Proposal.mk ⟨0, 0, 3, 3⟩ 5]] 0 :=
  (C2_per_batch_mode (RPNPostProcessor.init 2 2 1 0 (some 2) true) true
    [[Proposal.mk ⟨0, 0, 1, 1⟩ 3],
     [Proposal.mk ⟨0, 0, 2, 2⟩ 1, Proposal.mk ⟨0, 0, 3, 3⟩ 5]] rfl rfl).1
